import Mathlib

/-!
Shallow embedding of the agent control loop and the database seeding routine
of the HR-chatbot repository (src/seeddatabase.ts), together with proofs of
the specification claims about them.

Conventions of the embedding:
* Machine-level collaborators (the Gemini chat model, the MongoDB Atlas
  vector store, the wall clock read by `new Date().toISOString()`) are
  opaque external functions, passed as parameters, exactly as the spec
  treats them (black-box collaborators).
* JavaScript arrays of messages become `List Message`; `Array.prototype.concat`
  becomes `List.append`.
* Fallible calls (tool execution, database steps) return `Except String _`.
* Similarity scores are modelled as integers: the claims only compare them,
  never compute with them.
-/

/-- Message roles, as in LangChain: system, user (HumanMessage),
assistant (AIMessage), tool (ToolMessage). -/
inductive Role where
  | system
  | user
  | assistant
  | tool
deriving DecidableEq, Repr

/-- A tool call requested by an assistant message.  The only tool bound in
`callAgent` is `employee_lookup`, whose schema is
`{ query : string, n?: number (default 10) }` (src/seeddatabase.ts,
`employeeLookupTool`), so the arguments are embedded structurally. -/
structure ToolCall where
  name : String
  query : String
  n : Option Nat
deriving DecidableEq, Repr

/-- A chat message.  `tool_calls` is the list of tool calls an assistant
message requests (empty for other roles and for final answers). -/
structure Message where
  role : Role
  content : String
  tool_calls : List ToolCall := []
deriving DecidableEq, Repr

/-- `new HumanMessage(query)` (src/seeddatabase.ts, `callAgent`). -/
def humanMessage (query : String) : Message :=
  { role := .user, content := query }

/-- An assistant message carrying a final textual answer (no tool calls). -/
def assistantAnswer (content : String) : Message :=
  { role := .assistant, content := content }

/-- An assistant message requesting a list of tool calls. -/
def assistantToolRequest (content : String) (calls : List ToolCall) : Message :=
  { role := .assistant, content := content, tool_calls := calls }

/-- The `GraphState` reducer from src/seeddatabase.ts:
`reducer: (x, y) => x.concat(y)`. -/
def reducer (x y : List Message) : List Message := x ++ y

/-- `messages[messages.length - 1]` — the last message of the conversation.
The loop only ever reads it on non-empty conversations; the default is
irrelevant there. -/
def lastMessage (messages : List Message) : Message :=
  messages.getLastD { role := .assistant, content := "" }

/-- Embeds `shouldContinue` (src/seeddatabase.ts): returns "tools" when the
last message's `tool_calls` list is non-empty (`lastMessage.tool_calls?.length`
is truthy), and "__end__" otherwise. -/
def shouldContinue (messages : List Message) : String :=
  if (lastMessage messages).tool_calls.length ≠ 0 then "tools" else "__end__"

/-- The abstract similarity-search collaborator:
`vectorStore.similaritySearchWithScore(query, n)` returns a list of
(document, score) pairs.  Treated as a black box, per spec section 4.1/6. -/
def SearchFn : Type := String → Nat → List (String × Int)

/-- `JSON.stringify(result)` on the list of (document, score) pairs:
an injective serialization to one string payload. -/
def serializeResults (results : List (String × Int)) : String :=
  "[" ++ String.intercalate ","
    (results.map (fun r => "[" ++ r.1 ++ "," ++ toString r.2 ++ "]")) ++ "]"

/-- Embeds `employeeLookupTool` (src/seeddatabase.ts): destructures
`{ query, n = 10 }` (so `n` defaults to 10 when omitted), runs
`similaritySearchWithScore(query, n)` against the store, and returns
`JSON.stringify(result)`. -/
def employeeLookupTool (search : SearchFn) (query : String) (n : Option Nat) :
    String :=
  serializeResults (search query (n.getD 10))

/-- The scores of a ranked result list are in descending order. -/
def rankedDescending (results : List (String × Int)) : Prop :=
  results.Chain' (fun a b => b.2 ≤ a.2)

instance (results : List (String × Int)) : Decidable (rankedDescending results) := by
  unfold rankedDescending; infer_instance

/-- Executing one tool call: the bound tool may throw (the underlying store
call fails), so execution is `Except`. -/
def ToolExec : Type := ToolCall → Except String String

/-- Modelled from the spec: the library `ToolNode` runs one requested tool
call and wraps the outcome as a tool-result message; a tool-execution
failure is converted into a tool-result message carrying an error payload
instead of crashing the loop (spec sections 4.1 and 7, case a). -/
def runToolCall (exec : ToolExec) (tc : ToolCall) : Message :=
  match exec tc with
  | .ok out => { role := .tool, content := out }
  | .error e => { role := .tool, content := "Error: " ++ e }

/-- Modelled from the spec: the messages the `tools` node (`toolNode` in
src/seeddatabase.ts, a library `ToolNode`) produces for a state: one
tool-result message per tool call of the most recent assistant message, in
request order (spec section 4.3, rule 2). -/
def toolNodeMessages (exec : ToolExec) (messages : List Message) : List Message :=
  (lastMessage messages).tool_calls.map (runToolCall exec)

/-- The chat-model collaborator: `model.invoke(formattedPrompt)`.
`callModel` (src/seeddatabase.ts) formats the prompt from a fixed system
template, the current time (`new Date().toISOString()`) and the full message
history, so the collaborator is a function of the time string and the
history.  Opaque, per spec section 4.2. -/
def ModelFn : Type := String → List Message → Message

/-- Phases of the control loop (spec section 4.3): the `agent` node is the
MODEL_TURN, the `tools` node is the TOOL_TURN, `__end__` is DONE. -/
inductive Phase where
  | MODEL_TURN
  | TOOL_TURN
  | DONE
deriving DecidableEq, Repr

/-- A state of the control loop: the current phase, the conversation
(`GraphState.messages`), and the number of MODEL_TURN transitions performed
so far. -/
structure AgentState where
  phase : Phase
  messages : List Message
  turns : Nat
deriving DecidableEq, Repr

/-- One transition of the compiled graph (src/seeddatabase.ts, `workflow`):
* in MODEL_TURN, run `callModel` (append the model's reply via the reducer)
  and follow the conditional edge `shouldContinue`;
* in TOOL_TURN, run the tools node (append its tool-result messages via the
  reducer) and follow the fixed edge `tools -> agent`;
* DONE is terminal.
`times k` is the wall-clock string read at the k-th model call. -/
def step (model : ModelFn) (exec : ToolExec) (times : Nat → String)
    (s : AgentState) : AgentState :=
  match s.phase with
  | .MODEL_TURN =>
      let reply := model (times s.turns) s.messages
      let msgs := reducer s.messages [reply]
      { phase := if shouldContinue msgs = "tools" then .TOOL_TURN else .DONE
        messages := msgs
        turns := s.turns + 1 }
  | .TOOL_TURN =>
      { phase := .MODEL_TURN
        messages := reducer s.messages (toolNodeMessages exec s.messages)
        turns := s.turns }
  | .DONE => s

/-- Outcome of a run: either DONE with a final state, or the distinguished
step-limit-exceeded abort (spec section 7, case c). -/
inductive AgentResult where
  | done (final : AgentState)
  | stepLimitExceeded (final : AgentState)
deriving DecidableEq, Repr

/-- The state an outcome carries. -/
def AgentResult.finalState : AgentResult → AgentState
  | .done f => f
  | .stepLimitExceeded f => f

/-- Modelled from the spec: the library `app.invoke` loop with its step
budget — a hard cap on the number of MODEL_TURN transitions (spec section
4.3); `fuel` is the remaining budget.  Exceeding the cap aborts with the
distinguished step-limit outcome instead of looping forever. -/
def runAgent (model : ModelFn) (exec : ToolExec) (times : Nat → String) :
    Nat → AgentState → AgentResult
  | 0, s =>
      match s.phase with
      | .DONE => .done s
      | _ => .stepLimitExceeded s
  | fuel + 1, s =>
      match s.phase with
      | .DONE => .done s
      | .TOOL_TURN => runAgent model exec times fuel (step model exec times s)
      | .MODEL_TURN =>
          match (step model exec times s).phase with
          | .TOOL_TURN =>
              runAgent model exec times fuel
                (step model exec times (step model exec times s))
          | _ => .done (step model exec times s)

/-- The step budget configured in src/seeddatabase.ts:
`{ recursionLimit: 15, ... }`. -/
def stepBudget : Nat := 15

/-- A per-session checkpoint store: thread id to saved conversation
(spec section 4.4, `load(sessionId) -> Conversation | empty`). -/
def Checkpointer : Type := String → Option (List Message)

/-- Modelled from the spec: a freshly constructed `MemorySaver` holds no
checkpoint for any session. -/
def freshMemorySaver : Checkpointer := fun _ => none

/-- Modelled from the spec: `app.invoke(input, { thread_id })` with a
checkpointer loads the saved conversation for the thread (empty if none),
merges the input messages through the reducer, and runs the loop from
MODEL_TURN under the step budget (spec sections 4.3 and 4.4). -/
def appInvoke (model : ModelFn) (exec : ToolExec) (times : Nat → String)
    (saver : Checkpointer) (threadId : String) (input : List Message) :
    AgentResult :=
  runAgent model exec times stepBudget
    { phase := .MODEL_TURN
      messages := reducer ((saver threadId).getD []) input
      turns := 0 }

/-- Embeds `callAgent` (src/seeddatabase.ts): constructs a NEW `MemorySaver`
for this call (`const checkpointer = new MemorySaver();` inside the function
body), then invokes the compiled graph with `[new HumanMessage(query)]` and
the given thread id. -/
def callAgent (model : ModelFn) (exec : ToolExec) (times : Nat → String)
    (query threadId : String) : AgentResult :=
  appInvoke model exec times freshMemorySaver threadId [humanMessage query]

/-- The value `callAgent` hands back to its caller: the `content` of the
last message of the final state (`finalState.messages[...].content`); on a
step-limit abort the library call rejects, so no answer string is produced. -/
def askAgent (model : ModelFn) (exec : ToolExec) (times : Nat → String)
    (query threadId : String) : Option String :=
  match callAgent model exec times query threadId with
  | .done f => some (lastMessage f.messages).content
  | .stepLimitExceeded _ => none

/-!
Embedding of `seedDatabase` (src/seeddatabase.ts).  Employee records are
abstracted to their serialized documents (`String`): the claims about
seeding never inspect record fields, and `createEmployeeSummary` is pure,
total string formatting.  The fallible external steps — connecting/pinging
MongoDB, `generateSyntheticData` (an LLM call plus JSON parsing that can
throw), and each `MongoDBAtlasVectorSearch.fromDocuments` insertion — are
supplied as `Except`-valued outcomes in a `SeedEnv`.
-/

/-- Outcomes of the external calls `seedDatabase` makes, in program order. -/
structure SeedEnv where
  connectOutcome : Except String Unit
  generated : Except String (List String)
  insertOutcome : Nat → Except String Unit

/-- Observable state `seedDatabase` leaves behind: the documents in the
`employees` collection, whether `client.close()` ran, and the arguments of
`console.error` calls made by the catch block. -/
structure SeedState where
  docs : List String
  closed : Bool
  logged : List String
deriving DecidableEq, Repr

/-- The insertion loop `for (const record of recordsWithSummaries)`
(src/seeddatabase.ts): inserts records one at a time; the first failure
throws out of the loop, leaving the records inserted so far in place.
Returns the inserted documents and the first error, if any. -/
def insertAll (ins : Nat → Except String Unit) :
    List String → Nat → List String × Option String
  | [], _ => ([], none)
  | r :: rs, i =>
      match ins i with
      | .error e => ([], some e)
      | .ok _ =>
          let rest := insertAll ins rs (i + 1)
          (r :: rest.1, rest.2)

/-- Embeds `seedDatabase` (src/seeddatabase.ts): connect and ping; then
`collection.deleteMany({})` clears the employees collection; then generate
the synthetic records; then insert them one by one.  The whole body is a
`try`/`catch` that logs any error with `console.error("Error seeding
database:", error)` and does not rethrow, and a `finally` block always runs
`client.close()`. -/
def seedDatabase (env : SeedEnv) (initialDocs : List String) : SeedState :=
  match env.connectOutcome with
  | .error e =>
      { docs := initialDocs, closed := true
        logged := ["Error seeding database: " ++ e] }
  | .ok _ =>
      match env.generated with
      | .error e =>
          { docs := [], closed := true
            logged := ["Error seeding database: " ++ e] }
      | .ok recs =>
          let r := insertAll env.insertOutcome recs 0
          { docs := r.1, closed := true
            logged :=
              match r.2 with
              | some e => ["Error seeding database: " ++ e]
              | none => [] }

/-!
Canned collaborator stubs used to instantiate the claims on concrete inputs
(the spec's test scenarios, section 8).
-/

/-- A canned model stub: always returns a fixed final answer, no tool calls. -/
def cannedAnswerModel : ModelFn := fun _ _ => assistantAnswer "canned final answer"

/-- A canned model stub that always requests one `employee_lookup` call
(the spec's runaway scenario: the model never terminates on its own). -/
def loopingModel : ModelFn :=
  fun _ _ =>
    assistantToolRequest "searching" [⟨"employee_lookup", "senior engineers", none⟩]

/-- A canned model stub that requests one lookup on the first turn and then
answers (the spec's two-round scenario). -/
def oneLookupModel : ModelFn :=
  fun _ msgs =>
    if msgs.length ≤ 1 then
      assistantToolRequest "searching" [⟨"employee_lookup", "senior engineers", some 10⟩]
    else
      assistantAnswer "FINAL ANSWER: two senior engineers found"

/-- A tool stub whose underlying store call always throws. -/
def noToolExec : ToolExec := fun _ => .error "store unavailable"

/-- A tool stub that succeeds with a fixed serialized payload. -/
def okToolExec : ToolExec := fun _ => .ok "[[record-one,9]]"

/-- A fixed wall clock (first invocation). -/
def fixedTimes : Nat → String := fun _ => "2026-01-01T00:00:00.000Z"

/-- A different fixed wall clock (a later invocation of the same session). -/
def laterTimes : Nat → String := fun _ => "2026-01-02T12:34:56.000Z"

/-- A one-document store used to instantiate the lookup contract. -/
def witnessSearch : SearchFn := fun _ k => [("record-one", (9 : Int))].take k

/-- A seeding environment in which connect and generation succeed and the
second insertion fails. -/
def witnessSeedEnv : SeedEnv :=
  { connectOutcome := .ok ()
    generated := .ok ["doc-a", "doc-b", "doc-c"]
    insertOutcome := fun i => if i < 1 then .ok () else .error "index build failed" }

/-!
Helper lemmas about the embedded operations.
-/

theorem reducer_eq_append (x y : List Message) : reducer x y = x ++ y := rfl

theorem lastMessage_concat (xs : List Message) (m : Message) :
    lastMessage (xs ++ [m]) = m := by
  simp [lastMessage, List.getLastD_concat]

theorem shouldContinue_tools_iff (messages : List Message) :
    shouldContinue messages = "tools" ↔ (lastMessage messages).tool_calls ≠ [] := by
  unfold shouldContinue
  rcases h : (lastMessage messages).tool_calls with _ | ⟨tc, tcs⟩ <;> simp

theorem shouldContinue_end_iff (messages : List Message) :
    shouldContinue messages = "__end__" ↔ (lastMessage messages).tool_calls = [] := by
  unfold shouldContinue
  rcases h : (lastMessage messages).tool_calls with _ | ⟨tc, tcs⟩ <;> simp

theorem shouldContinue_eq_or (messages : List Message) :
    shouldContinue messages = "tools" ∨ shouldContinue messages = "__end__" := by
  unfold shouldContinue
  split <;> simp

theorem step_model_turn (model : ModelFn) (exec : ToolExec) (times : Nat → String)
    (s : AgentState) (h : s.phase = .MODEL_TURN) :
    step model exec times s =
      { phase :=
          if shouldContinue (s.messages ++ [model (times s.turns) s.messages]) = "tools"
          then .TOOL_TURN else .DONE
        messages := s.messages ++ [model (times s.turns) s.messages]
        turns := s.turns + 1 } := by
  unfold step
  rw [h]
  rfl

theorem step_tool_turn (model : ModelFn) (exec : ToolExec) (times : Nat → String)
    (s : AgentState) (h : s.phase = .TOOL_TURN) :
    step model exec times s =
      { phase := .MODEL_TURN
        messages := s.messages ++ toolNodeMessages exec s.messages
        turns := s.turns } := by
  unfold step
  rw [h]
  rfl

theorem step_done (model : ModelFn) (exec : ToolExec) (times : Nat → String)
    (s : AgentState) (h : s.phase = .DONE) : step model exec times s = s := by
  unfold step
  rw [h]

theorem step_messages_append (model : ModelFn) (exec : ToolExec) (times : Nat → String)
    (s : AgentState) :
    ∃ produced, (step model exec times s).messages = s.messages ++ produced := by
  cases h : s.phase
  · exact ⟨[model (times s.turns) s.messages], by rw [step_model_turn model exec times s h]⟩
  · exact ⟨toolNodeMessages exec s.messages, by rw [step_tool_turn model exec times s h]⟩
  · exact ⟨[], by rw [step_done model exec times s h]; simp⟩

theorem step_turns_le (model : ModelFn) (exec : ToolExec) (times : Nat → String)
    (s : AgentState) : (step model exec times s).turns ≤ s.turns + 1 := by
  cases h : s.phase
  · rw [step_model_turn model exec times s h]
  · rw [step_tool_turn model exec times s h]; exact Nat.le_succ _
  · rw [step_done model exec times s h]; exact Nat.le_succ _

theorem step_model_phase (model : ModelFn) (exec : ToolExec) (times : Nat → String)
    (s : AgentState) (h : s.phase = .MODEL_TURN) :
    (step model exec times s).phase = .TOOL_TURN ∨
    (step model exec times s).phase = .DONE := by
  rw [step_model_turn model exec times s h]
  by_cases hc :
      shouldContinue (s.messages ++ [model (times s.turns) s.messages]) = "tools" <;>
    simp [hc]

theorem runAgent_zero (model : ModelFn) (exec : ToolExec) (times : Nat → String)
    (s : AgentState) :
    runAgent model exec times 0 s =
      match s.phase with
      | .DONE => .done s
      | _ => .stepLimitExceeded s := by
  rfl

theorem runAgent_succ_done (model : ModelFn) (exec : ToolExec) (times : Nat → String)
    (fuel : Nat) (s : AgentState) (h : s.phase = .DONE) :
    runAgent model exec times (fuel + 1) s = .done s := by
  conv_lhs => unfold runAgent
  rw [h]

theorem runAgent_succ_tool (model : ModelFn) (exec : ToolExec) (times : Nat → String)
    (fuel : Nat) (s : AgentState) (h : s.phase = .TOOL_TURN) :
    runAgent model exec times (fuel + 1) s =
      runAgent model exec times fuel (step model exec times s) := by
  conv_lhs => unfold runAgent
  rw [h]

theorem runAgent_succ_model_tool (model : ModelFn) (exec : ToolExec)
    (times : Nat → String) (fuel : Nat) (s : AgentState) (h : s.phase = .MODEL_TURN)
    (h2 : (step model exec times s).phase = .TOOL_TURN) :
    runAgent model exec times (fuel + 1) s =
      runAgent model exec times fuel
        (step model exec times (step model exec times s)) := by
  conv_lhs => unfold runAgent
  rw [h, h2]

theorem runAgent_succ_model_done (model : ModelFn) (exec : ToolExec)
    (times : Nat → String) (fuel : Nat) (s : AgentState) (h : s.phase = .MODEL_TURN)
    (h2 : (step model exec times s).phase = .DONE) :
    runAgent model exec times (fuel + 1) s = .done (step model exec times s) := by
  conv_lhs => unfold runAgent
  rw [h, h2]

theorem runAgent_turns_le (model : ModelFn) (exec : ToolExec) (times : Nat → String) :
    ∀ (fuel : Nat) (s : AgentState),
      ((runAgent model exec times fuel s).finalState).turns ≤ s.turns + fuel := by
  intro fuel
  induction fuel with
  | zero =>
      intro s
      rw [runAgent_zero]
      cases h : s.phase <;> simp [AgentResult.finalState]
  | succ f ih =>
      intro s
      cases h : s.phase
      · rcases step_model_phase model exec times s h with h2 | h2
        · rw [runAgent_succ_model_tool model exec times f s h h2]
          have h3 := ih (step model exec times (step model exec times s))
          have h4 : (step model exec times (step model exec times s)).turns
              = s.turns + 1 := by
            rw [step_tool_turn model exec times _ h2,
              step_model_turn model exec times s h]
          omega
        · rw [runAgent_succ_model_done model exec times f s h h2]
          have h4 : (step model exec times s).turns = s.turns + 1 := by
            rw [step_model_turn model exec times s h]
          simp only [AgentResult.finalState]
          omega
      · rw [runAgent_succ_tool model exec times f s h]
        have h3 := ih (step model exec times s)
        have h4 : (step model exec times s).turns = s.turns := by
          rw [step_tool_turn model exec times s h]
        omega
      · rw [runAgent_succ_done model exec times f s h]
        simp only [AgentResult.finalState]
        omega

theorem runAgent_messages_append (model : ModelFn) (exec : ToolExec)
    (times : Nat → String) :
    ∀ (fuel : Nat) (s : AgentState),
      ∃ rest,
        ((runAgent model exec times fuel s).finalState).messages
          = s.messages ++ rest := by
  intro fuel
  induction fuel with
  | zero =>
      intro s
      rw [runAgent_zero]
      cases h : s.phase <;> exact ⟨[], by simp [AgentResult.finalState]⟩
  | succ f ih =>
      intro s
      cases h : s.phase
      · rcases step_model_phase model exec times s h with h2 | h2
        · rw [runAgent_succ_model_tool model exec times f s h h2]
          obtain ⟨r1, hr1⟩ := step_messages_append model exec times s
          obtain ⟨r2, hr2⟩ :=
            step_messages_append model exec times (step model exec times s)
          obtain ⟨r3, hr3⟩ := ih (step model exec times (step model exec times s))
          exact ⟨r1 ++ r2 ++ r3, by rw [hr3, hr2, hr1]; simp⟩
        · rw [runAgent_succ_model_done model exec times f s h h2]
          obtain ⟨r1, hr1⟩ := step_messages_append model exec times s
          exact ⟨r1, hr1⟩
      · rw [runAgent_succ_tool model exec times f s h]
        obtain ⟨r1, hr1⟩ := step_messages_append model exec times s
        obtain ⟨r3, hr3⟩ := ih (step model exec times s)
        exact ⟨r1 ++ r3, by rw [hr3, hr1]; simp⟩
      · rw [runAgent_succ_done model exec times f s h]
        exact ⟨[], by simp [AgentResult.finalState]⟩

theorem runAgent_done_phase (model : ModelFn) (exec : ToolExec)
    (times : Nat → String) :
    ∀ (fuel : Nat) (s : AgentState) (f : AgentState),
      runAgent model exec times fuel s = .done f → f.phase = .DONE := by
  intro fuel
  induction fuel with
  | zero =>
      intro s f hr
      rw [runAgent_zero] at hr
      cases h : s.phase <;> rw [h] at hr <;> simp_all
  | succ fl ih =>
      intro s f hr
      cases h : s.phase
      · rcases step_model_phase model exec times s h with h2 | h2
        · rw [runAgent_succ_model_tool model exec times fl s h h2] at hr
          exact ih _ _ hr
        · rw [runAgent_succ_model_done model exec times fl s h h2] at hr
          cases hr
          exact h2
      · rw [runAgent_succ_tool model exec times fl s h] at hr
        exact ih _ _ hr
      · rw [runAgent_succ_done model exec times fl s h] at hr
        cases hr
        exact h

theorem runAgent_limit (model : ModelFn) (exec : ToolExec) (times : Nat → String) :
    ∀ (fuel : Nat) (s : AgentState) (f : AgentState), s.phase ≠ .TOOL_TURN →
      runAgent model exec times fuel s = .stepLimitExceeded f →
      f.phase = .MODEL_TURN ∧ f.turns = s.turns + fuel := by
  intro fuel
  induction fuel with
  | zero =>
      intro s f hs hr
      rw [runAgent_zero] at hr
      cases h : s.phase <;> rw [h] at hr <;> simp_all
  | succ fl ih =>
      intro s f hs hr
      cases h : s.phase
      · rcases step_model_phase model exec times s h with h2 | h2
        · rw [runAgent_succ_model_tool model exec times fl s h h2] at hr
          have h3 : (step model exec times (step model exec times s)).phase
              = .MODEL_TURN := by
            rw [step_tool_turn model exec times _ h2]
          have h4 : (step model exec times (step model exec times s)).turns
              = s.turns + 1 := by
            rw [step_tool_turn model exec times _ h2,
              step_model_turn model exec times s h]
          obtain ⟨hp, ht⟩ := ih _ _ (by rw [h3]; simp) hr
          exact ⟨hp, by omega⟩
        · rw [runAgent_succ_model_done model exec times fl s h h2] at hr
          cases hr
      · exact absurd h hs
      · rw [runAgent_succ_done model exec times fl s h] at hr
        cases hr

theorem step_time_invariant (model : ModelFn) (exec : ToolExec)
    (times1 times2 : Nat → String)
    (hm : ∀ t u msgs, model t msgs = model u msgs) (s : AgentState) :
    step model exec times1 s = step model exec times2 s := by
  cases h : s.phase
  · rw [step_model_turn model exec times1 s h, step_model_turn model exec times2 s h,
      hm (times1 s.turns) (times2 s.turns) s.messages]
  · rw [step_tool_turn model exec times1 s h, step_tool_turn model exec times2 s h]
  · rw [step_done model exec times1 s h, step_done model exec times2 s h]

theorem runAgent_time_invariant (model : ModelFn) (exec : ToolExec)
    (times1 times2 : Nat → String)
    (hm : ∀ t u msgs, model t msgs = model u msgs) :
    ∀ (fuel : Nat) (s : AgentState),
      runAgent model exec times1 fuel s = runAgent model exec times2 fuel s := by
  intro fuel
  induction fuel with
  | zero => intro s; rw [runAgent_zero, runAgent_zero]
  | succ f ih =>
      intro s
      have hstep := step_time_invariant model exec times1 times2 hm s
      cases h : s.phase
      · rcases step_model_phase model exec times1 s h with h2 | h2
        · have h2' : (step model exec times2 s).phase = .TOOL_TURN := by
            rw [← hstep]; exact h2
          rw [runAgent_succ_model_tool model exec times1 f s h h2,
            runAgent_succ_model_tool model exec times2 f s h h2']
          have e1 : step model exec times1 (step model exec times1 s)
              = step model exec times2 (step model exec times2 s) := by
            rw [← hstep]
            exact step_time_invariant model exec times1 times2 hm _
          rw [e1]
          exact ih _
        · have h2' : (step model exec times2 s).phase = .DONE := by
            rw [← hstep]; exact h2
          rw [runAgent_succ_model_done model exec times1 f s h h2,
            runAgent_succ_model_done model exec times2 f s h h2', hstep]
      · rw [runAgent_succ_tool model exec times1 f s h,
          runAgent_succ_tool model exec times2 f s h, hstep]
        exact ih _
      · rw [runAgent_succ_done model exec times1 f s h,
          runAgent_succ_done model exec times2 f s h]

theorem insertAll_take (ins : Nat → Except String Unit) :
    ∀ (recs : List String) (i : Nat),
      ∃ k, k ≤ recs.length ∧ (insertAll ins recs i).1 = recs.take k := by
  intro recs
  induction recs with
  | nil => intro i; exact ⟨0, by simp, rfl⟩
  | cons r rs ih =>
      intro i
      cases hins : ins i with
      | error e => exact ⟨0, by simp, by simp [insertAll, hins]⟩
      | ok u =>
          obtain ⟨k, hk, he⟩ := ih (i + 1)
          exact ⟨k + 1, by simpa using hk, by simp [insertAll, hins, he]⟩

/-!
Claim theorems.
-/

/-- C1: after a MODEL_TURN appends the model's returned message, the loop
transitions to TOOL_TURN if and only if that message's tool-call list is
non-empty, and to DONE otherwise; moreover the termination check
(`shouldContinue`) depends only on the last message's tool-call list. -/
theorem c1_termination_check (model : ModelFn) (exec : ToolExec)
    (times : Nat → String) (s : AgentState) (h : s.phase = Phase.MODEL_TURN) :
    ((step model exec times s).phase = Phase.TOOL_TURN ↔
      (lastMessage (step model exec times s).messages).tool_calls ≠ []) ∧
    ((step model exec times s).phase = Phase.DONE ↔
      (lastMessage (step model exec times s).messages).tool_calls = []) ∧
    (∀ msgs1 msgs2 : List Message, lastMessage msgs1 = lastMessage msgs2 →
      shouldContinue msgs1 = shouldContinue msgs2) := by
  have hkey : ∀ msgs1 msgs2 : List Message, lastMessage msgs1 = lastMessage msgs2 →
      shouldContinue msgs1 = shouldContinue msgs2 := by
    intro m1 m2 hm
    unfold shouldContinue
    rw [hm]
  refine ⟨?_, ?_, hkey⟩ <;>
  · rw [step_model_turn model exec times s h]
    simp only [lastMessage_concat]
    by_cases hc :
        shouldContinue (s.messages ++ [model (times s.turns) s.messages]) = "tools"
    · have hne := (shouldContinue_tools_iff _).mp hc
      rw [lastMessage_concat] at hne
      simp [hc, hne]
    · have hend := (shouldContinue_eq_or
        (s.messages ++ [model (times s.turns) s.messages])).resolve_left hc
      have hnil := (shouldContinue_end_iff _).mp hend
      rw [lastMessage_concat] at hnil
      simp [hc, hnil]

/-- C1 witness: a concrete MODEL_TURN state, run under the always-tool model
and under the immediately-answering model. -/
theorem c1_termination_check_witness :
    (⟨Phase.MODEL_TURN, [humanMessage "hi"], 0⟩ : AgentState).phase
        = Phase.MODEL_TURN ∧
    ((step loopingModel noToolExec fixedTimes
        ⟨Phase.MODEL_TURN, [humanMessage "hi"], 0⟩).phase = Phase.TOOL_TURN ↔
      (lastMessage (step loopingModel noToolExec fixedTimes
        ⟨Phase.MODEL_TURN, [humanMessage "hi"], 0⟩).messages).tool_calls ≠ []) :=
  ⟨rfl, (c1_termination_check loopingModel noToolExec fixedTimes
    ⟨Phase.MODEL_TURN, [humanMessage "hi"], 0⟩ rfl).1⟩

/-- C2: a run invoked with the configured step budget (15, the
`recursionLimit` passed to `app.invoke`) performs at most 15 MODEL_TURN
transitions; a run that exhausts the budget ends in the distinguished
step-limit-exceeded outcome, with all 15 budgeted model turns performed and
the loop not DONE, rather than looping forever. -/
theorem c2_step_budget (model : ModelFn) (exec : ToolExec) (times : Nat → String)
    (s : AgentState) (h0 : s.turns = 0) (hp : s.phase = Phase.MODEL_TURN) :
    ((runAgent model exec times stepBudget s).finalState).turns ≤ 15 ∧
    (∀ f, runAgent model exec times stepBudget s = .done f →
      f.phase = Phase.DONE) ∧
    (∀ f, runAgent model exec times stepBudget s = .stepLimitExceeded f →
      f.turns = 15 ∧ f.phase = Phase.MODEL_TURN) := by
  refine ⟨?_, ?_, ?_⟩
  · have h1 := runAgent_turns_le model exec times stepBudget s
    have h2 : stepBudget = 15 := rfl
    omega
  · intro f hf
    exact runAgent_done_phase model exec times stepBudget s f hf
  · intro f hf
    obtain ⟨hph, ht⟩ :=
      runAgent_limit model exec times stepBudget s f (by rw [hp]; simp) hf
    have h2 : stepBudget = 15 := rfl
    exact ⟨by omega, hph⟩

/-- C2 witness: the runaway scenario — a model stub that always requests a
tool call exhausts the budget and the run aborts as step-limit-exceeded. -/
theorem c2_step_budget_witness :
    (⟨Phase.MODEL_TURN, [humanMessage "hi"], 0⟩ : AgentState).turns = 0 ∧
    ((runAgent loopingModel noToolExec fixedTimes stepBudget
        ⟨Phase.MODEL_TURN, [humanMessage "hi"], 0⟩).finalState).turns ≤ 15 :=
  ⟨rfl, (c2_step_budget loopingModel noToolExec fixedTimes
    ⟨Phase.MODEL_TURN, [humanMessage "hi"], 0⟩ rfl rfl).1⟩

/-- C3: in a TOOL_TURN, the tools node appends exactly one tool-result
message per tool call requested by the most recent assistant message, in
request order, and control returns to MODEL_TURN — so all the results are
in the conversation before the next model invocation. -/
theorem c3_tool_results_in_order (model : ModelFn) (exec : ToolExec)
    (times : Nat → String) (s : AgentState) (h : s.phase = Phase.TOOL_TURN) :
    (step model exec times s).messages
      = s.messages ++ (lastMessage s.messages).tool_calls.map (runToolCall exec) ∧
    ((lastMessage s.messages).tool_calls.map (runToolCall exec)).length
      = (lastMessage s.messages).tool_calls.length ∧
    (∀ m ∈ (lastMessage s.messages).tool_calls.map (runToolCall exec),
      m.role = Role.tool) ∧
    (step model exec times s).phase = Phase.MODEL_TURN := by
  refine ⟨?_, by simp, ?_, ?_⟩
  · rw [step_tool_turn model exec times s h]
    rfl
  · intro m hm
    simp only [List.mem_map] at hm
    obtain ⟨tc, _, rfl⟩ := hm
    unfold runToolCall
    cases exec tc <;> rfl
  · rw [step_tool_turn model exec times s h]

/-- C3 witness: a TOOL_TURN state whose last assistant message requests two
lookups. -/
theorem c3_tool_results_in_order_witness :
    (⟨Phase.TOOL_TURN,
        [humanMessage "hi",
         assistantToolRequest "searching"
           [⟨"employee_lookup", "alpha", none⟩,
            ⟨"employee_lookup", "beta", some 2⟩]], 1⟩ : AgentState).phase
      = Phase.TOOL_TURN ∧
    (step cannedAnswerModel okToolExec fixedTimes
        ⟨Phase.TOOL_TURN,
          [humanMessage "hi",
           assistantToolRequest "searching"
             [⟨"employee_lookup", "alpha", none⟩,
              ⟨"employee_lookup", "beta", some 2⟩]], 1⟩).messages
      = [humanMessage "hi",
         assistantToolRequest "searching"
           [⟨"employee_lookup", "alpha", none⟩,
            ⟨"employee_lookup", "beta", some 2⟩]]
        ++ (lastMessage
            [humanMessage "hi",
             assistantToolRequest "searching"
               [⟨"employee_lookup", "alpha", none⟩,
                ⟨"employee_lookup", "beta", some 2⟩]]).tool_calls.map
              (runToolCall okToolExec) :=
  ⟨rfl, (c3_tool_results_in_order cannedAnswerModel okToolExec fixedTimes
    ⟨Phase.TOOL_TURN,
      [humanMessage "hi",
       assistantToolRequest "searching"
         [⟨"employee_lookup", "alpha", none⟩,
          ⟨"employee_lookup", "beta", some 2⟩]], 1⟩ rfl).1⟩

/-- C4: the conversation is append-only — every transition of the loop
yields a new message sequence equal to the old one concatenated with the
newly produced messages, and over a whole run the final conversation
extends the initial one; no message is reordered, modified or deleted. -/
theorem c4_append_only (model : ModelFn) (exec : ToolExec) (times : Nat → String)
    (s : AgentState) (fuel : Nat) :
    (∃ produced, (step model exec times s).messages = s.messages ++ produced) ∧
    (∃ rest, ((runAgent model exec times fuel s).finalState).messages
        = s.messages ++ rest) :=
  ⟨step_messages_append model exec times s,
   runAgent_messages_append model exec times fuel s⟩

/-- C5: evidence against the claim. `callAgent` constructs a NEW
`MemorySaver` on every invocation (`const checkpointer = new MemorySaver();`
inside the function body, src/seeddatabase.ts), so the checkpoint store does
not outlive one call: a second invocation with the same session id starts
from an empty conversation.  Concretely, a first call on session-1 ends with
the two messages of that exchange, and a follow-up call on the SAME session
again contains only its own user message and reply — the first exchange is
gone, contradicting "resumes from the previously accumulated Conversation". -/
theorem c5_fresh_saver_per_call :
    callAgent cannedAnswerModel noToolExec fixedTimes "first question" "session-1"
      = .done ⟨Phase.DONE,
          [humanMessage "first question", assistantAnswer "canned final answer"],
          1⟩ ∧
    callAgent cannedAnswerModel noToolExec laterTimes "follow-up question" "session-1"
      = .done ⟨Phase.DONE,
          [humanMessage "follow-up question", assistantAnswer "canned final answer"],
          1⟩ := by
  constructor <;> rfl

/-- C6: when the underlying store call for a requested tool call throws, the
loop does not crash: the failure becomes a tool-result message carrying an
error payload, that message is appended to the conversation by the tools
node, and the loop proceeds to the next MODEL_TURN (the run simply continues
with the stepped state). -/
theorem c6_tool_failure_recovered (model : ModelFn) (exec : ToolExec)
    (times : Nat → String) (s : AgentState) (tc : ToolCall) (e : String)
    (h : s.phase = Phase.TOOL_TURN)
    (hmem : tc ∈ (lastMessage s.messages).tool_calls)
    (herr : exec tc = .error e) :
    runToolCall exec tc = { role := .tool, content := "Error: " ++ e } ∧
    ({ role := .tool, content := "Error: " ++ e } : Message)
      ∈ (step model exec times s).messages ∧
    (step model exec times s).phase = Phase.MODEL_TURN ∧
    (∀ fuel, runAgent model exec times (fuel + 1) s
        = runAgent model exec times fuel (step model exec times s)) := by
  have h1 : runToolCall exec tc = { role := .tool, content := "Error: " ++ e } := by
    unfold runToolCall
    rw [herr]
  refine ⟨h1, ?_, ?_, ?_⟩
  · rw [step_tool_turn model exec times s h]
    refine List.mem_append_right _ ?_
    unfold toolNodeMessages
    rw [← h1]
    exact List.mem_map_of_mem _ hmem
  · rw [step_tool_turn model exec times s h]
  · intro fuel
    exact runAgent_succ_tool model exec times fuel s h

/-- C6 witness: the spec's failing-tool scenario — the store stub throws and
the error payload lands in the conversation. -/
theorem c6_tool_failure_recovered_witness :
    (⟨Phase.TOOL_TURN,
        [humanMessage "hi",
         assistantToolRequest "searching"
           [⟨"employee_lookup", "malformed", none⟩]], 1⟩ : AgentState).phase
      = Phase.TOOL_TURN ∧
    ({ role := .tool, content := "Error: " ++ "store unavailable" } : Message)
      ∈ (step cannedAnswerModel noToolExec fixedTimes
          ⟨Phase.TOOL_TURN,
            [humanMessage "hi",
             assistantToolRequest "searching"
               [⟨"employee_lookup", "malformed", none⟩]], 1⟩).messages :=
  ⟨rfl, (c6_tool_failure_recovered cannedAnswerModel noToolExec fixedTimes
    ⟨Phase.TOOL_TURN,
      [humanMessage "hi",
       assistantToolRequest "searching"
         [⟨"employee_lookup", "malformed", none⟩]], 1⟩
    ⟨"employee_lookup", "malformed", none⟩ "store unavailable"
    rfl (by simp [lastMessage, assistantToolRequest]) rfl).2.1⟩

/-- C7: given deterministic collaborators — a canned model stub whose reply
does not depend on the wall-clock string interpolated into the prompt, and a
fixed tool stub — two invocations of the caller-facing API with the same
query and session id (differing only in invocation time) produce identical
outcomes: the same final conversation and the same answer. -/
theorem c7_deterministic (model : ModelFn) (exec : ToolExec)
    (times1 times2 : Nat → String) (query threadId : String)
    (hm : ∀ t u msgs, model t msgs = model u msgs) :
    callAgent model exec times1 query threadId
      = callAgent model exec times2 query threadId ∧
    askAgent model exec times1 query threadId
      = askAgent model exec times2 query threadId := by
  have h1 : callAgent model exec times1 query threadId
      = callAgent model exec times2 query threadId := by
    unfold callAgent appInvoke
    exact runAgent_time_invariant model exec times1 times2 hm stepBudget _
  refine ⟨h1, ?_⟩
  unfold askAgent
  rw [h1]

/-- C7 witness: the canned model ignores the clock, so the run at the first
invocation time equals the run at the later invocation time. -/
theorem c7_deterministic_witness :
    callAgent cannedAnswerModel okToolExec fixedTimes "find engineers" "session-7"
      = callAgent cannedAnswerModel okToolExec laterTimes "find engineers" "session-7" :=
  (c7_deterministic cannedAnswerModel okToolExec fixedTimes laterTimes
    "find engineers" "session-7" (fun _ _ _ => rfl)).1

/-- C8: the tool adapter exposes the single operation
`employee_lookup(query, n)` with `n` defaulting to 10 when omitted; under
the contract's precondition (non-empty query, positive `n`) and the store
collaborator's contract (it returns up to `n` matches ranked by descending
score), the adapter returns those at-most-`n` descending-ranked matches
serialized to one string payload. -/
theorem c8_lookup_contract (search : SearchFn) (query : String) (n : Option Nat)
    (hq : query ≠ "") (hn : ∀ k ∈ n, 0 < k)
    (hstore : ∀ q k, (search q k).length ≤ k ∧ rankedDescending (search q k)) :
    employeeLookupTool search query n
      = serializeResults (search query (n.getD 10)) ∧
    (search query (n.getD 10)).length ≤ n.getD 10 ∧
    rankedDescending (search query (n.getD 10)) ∧
    employeeLookupTool search query none = serializeResults (search query 10) :=
  ⟨rfl, (hstore query (n.getD 10)).1, (hstore query (n.getD 10)).2, rfl⟩

/-- C8 witness: a one-document store satisfying the store contract, queried
with `n` omitted, so the default 10 applies. -/
theorem c8_lookup_contract_witness :
    ("engineers" : String) ≠ "" ∧
    employeeLookupTool witnessSearch "engineers" none
      = serializeResults (witnessSearch "engineers" 10) ∧
    (witnessSearch "engineers" 10).length ≤ 10 ∧
    rankedDescending (witnessSearch "engineers" 10) := by
  have h := c8_lookup_contract witnessSearch "engineers" none (by decide)
    (by intro k hk; simp at hk)
    (by
      intro q k
      constructor
      · unfold witnessSearch
        simpa using Nat.min_le_left 1 k
      · unfold witnessSearch rankedDescending
        cases k <;> simp)
  exact ⟨by decide, h.1, h.2.1, h.2.2.1⟩

/-- C9: an invocation of the caller-facing API seeds the loop with the
conversation loaded from the checkpoint store for that session (empty if
none) plus exactly one new user message holding the query, runs from
MODEL_TURN under the step budget, and — when the run reaches DONE — returns
the content of the last message of the final conversation; moreover the
final conversation of `callAgent` extends its seeded `[user query]` state. -/
theorem c9_seed_and_answer (model : ModelFn) (exec : ToolExec)
    (times : Nat → String) (saver : Checkpointer) (query threadId : String) :
    appInvoke model exec times saver threadId [humanMessage query]
      = runAgent model exec times stepBudget
          ⟨Phase.MODEL_TURN, ((saver threadId).getD []) ++ [humanMessage query], 0⟩ ∧
    (∀ f, callAgent model exec times query threadId = .done f →
      askAgent model exec times query threadId
          = some (lastMessage f.messages).content ∧
      ∃ rest, f.messages = humanMessage query :: rest) := by
  refine ⟨rfl, ?_⟩
  intro f hf
  constructor
  · unfold askAgent
    rw [hf]
  · obtain ⟨rest, hrest⟩ := runAgent_messages_append model exec times stepBudget
      ⟨Phase.MODEL_TURN, [humanMessage query], 0⟩
    have hc : callAgent model exec times query threadId
        = runAgent model exec times stepBudget
            ⟨Phase.MODEL_TURN, [humanMessage query], 0⟩ := rfl
    rw [← hc, hf] at hrest
    exact ⟨rest, by simpa [AgentResult.finalState] using hrest⟩

/-- C9 witness: the canned immediately-answering model — the API returns
the content of the last message, and the final conversation starts with the
seeded user message. -/
theorem c9_seed_and_answer_witness :
    askAgent cannedAnswerModel okToolExec fixedTimes "hello" "session-9"
      = some (lastMessage
          [humanMessage "hello", assistantAnswer "canned final answer"]).content ∧
    ∃ rest, [humanMessage "hello", assistantAnswer "canned final answer"]
        = humanMessage "hello" :: rest :=
  (c9_seed_and_answer cannedAnswerModel okToolExec fixedTimes freshMemorySaver
    "hello" "session-9").2
    ⟨Phase.DONE, [humanMessage "hello", assistantAnswer "canned final answer"], 1⟩
    (by rfl)

/-- C10: `seedDatabase` clears the employees collection before generating
and inserting (after a successful connect, the old documents are
unconditionally gone: whatever remains is a prefix of the newly generated
records, and a generation failure leaves the collection empty — the
deleted documents are never restored, so seeding is not atomic); every
failure is caught and logged rather than rethrown (the function always
returns an ordinary final state), and the MongoDB client is always
closed. -/
theorem c10_seed_database (env : SeedEnv) (initialDocs : List String) :
    (seedDatabase env initialDocs).closed = true ∧
    (∀ e, env.connectOutcome = .error e →
      seedDatabase env initialDocs
        = ⟨initialDocs, true, ["Error seeding database: " ++ e]⟩) ∧
    (∀ u, env.connectOutcome = .ok u → ∀ e, env.generated = .error e →
      (seedDatabase env initialDocs).docs = [] ∧
      (seedDatabase env initialDocs).logged
        = ["Error seeding database: " ++ e]) ∧
    (∀ u, env.connectOutcome = .ok u → ∀ recs, env.generated = .ok recs →
      ∃ k, k ≤ recs.length ∧ (seedDatabase env initialDocs).docs = recs.take k) ∧
    (∀ u, env.connectOutcome = .ok u → ∀ recs, env.generated = .ok recs →
      ∀ e, (insertAll env.insertOutcome recs 0).2 = some e →
        (seedDatabase env initialDocs).logged
          = ["Error seeding database: " ++ e]) := by
  refine ⟨?_, ?_, ?_, ?_, ?_⟩
  · unfold seedDatabase
    cases hc : env.connectOutcome with
    | error e => rfl
    | ok u =>
        cases hg : env.generated with
        | error e => rfl
        | ok recs => rfl
  · intro e hc
    unfold seedDatabase
    rw [hc]
  · intro u hc e hg
    unfold seedDatabase
    rw [hc, hg]
    exact ⟨rfl, rfl⟩
  · intro u hc recs hg
    obtain ⟨k, hk, he⟩ := insertAll_take env.insertOutcome recs 0
    refine ⟨k, hk, ?_⟩
    unfold seedDatabase
    rw [hc, hg]
    exact he
  · intro u hc recs hg e hins
    unfold seedDatabase
    rw [hc, hg]
    simp only [hins]

/-- C10 witness: connect and generation succeed, the second insertion fails —
the pre-existing document is gone, only the successfully inserted prefix
remains, the error is logged, and the client is closed. -/
theorem c10_seed_database_witness :
    (seedDatabase witnessSeedEnv ["old-employee"]).closed = true ∧
    (∃ k, k ≤ (["doc-a", "doc-b", "doc-c"] : List String).length ∧
      (seedDatabase witnessSeedEnv ["old-employee"]).docs
        = (["doc-a", "doc-b", "doc-c"] : List String).take k) ∧
    (seedDatabase witnessSeedEnv ["old-employee"]).logged
      = ["Error seeding database: " ++ "index build failed"] := by
  have h := c10_seed_database witnessSeedEnv ["old-employee"]
  exact ⟨h.1, h.2.2.2.1 () rfl ["doc-a", "doc-b", "doc-c"] rfl,
    h.2.2.2.2 () rfl ["doc-a", "doc-b", "doc-c"] rfl "index build failed" (by decide)⟩
